import Mathlib

/-!
Verification of the helper utilities in `scripts/helpers.mjs`: the
fingerprint engine (`hash`, `generateHashedKey`, `hasDuplicatedChildren`),
the icon rename workflow (`renameIcon`), and the `readFile` wrapper.

The JavaScript code is shallowly embedded: machine arithmetic is modelled
over `Nat` with explicit reduction modulo `2 ^ 32` exactly where the
JavaScript bitwise operators truncate, the filesystem and git working tree
are modelled as explicit state threaded through `renameIcon`, and JSON
documents are modelled as an inductive value type whose objects are ordered
association lists (JavaScript objects preserve insertion order, and
`JSON.parse` / `JSON.stringify` round-trip fields in that order).
-/

namespace Helpers

/-! ## Fingerprint engine: the `hash` function (helpers.mjs lines 149-159)

`hash(string, seed = 5381)` runs `seed = (seed * 33) ^ charCodeAt(--i)`
from the last character to the first, then returns
`(seed >>> 0).toString(36).substr(0, 6)`.

In JavaScript each `^` application coerces its operands with `ToInt32`,
so after every step the value is a 32-bit pattern; `seed * 33` is exact in
double precision (the pattern is below `2 ^ 32`, times 33 stays below
`2 ^ 53`), and multiplication and XOR both commute with truncation to the
low 32 bits, so the running value is faithfully represented by a natural
number reduced modulo `2 ^ 32` at each step, and the final `>>> 0` is the
identity on that representation. -/

/-- The modulus of 32-bit patterns, `2 ^ 32`. -/
def pow32 : Nat := 4294967296

/-- UTF-16 code units of one character, as `String.prototype.charCodeAt`
enumerates them (astral code points become a surrogate pair). -/
def utf16CodeUnits (c : Char) : List Nat :=
  if c.toNat < 65536 then [c.toNat]
  else [55296 + (c.toNat - 65536) / 1024, 56320 + (c.toNat - 65536) % 1024]

/-- The sequence of UTF-16 code units of a string, the values over which
the JavaScript `while` loop of `hash` iterates. -/
def jsCharCodes (s : String) : List Nat := (s.data.map utf16CodeUnits).flatten

/-- The 32-bit value accumulated by the loop of `hash`: the code units are
consumed from the last to the first, each step is
`seed = (seed * 33) ^ code` truncated to 32 bits, and the trailing
`>>> 0` reduces the initial seed as well when the string is empty. -/
def hashValue (codes : List Nat) (seed : Nat) : Nat :=
  (codes.foldr (fun c u => ((u * 33) ^^^ c) % pow32) seed) % pow32

/-- The character for digit `d` used by `Number.prototype.toString(36)`:
`0`-`9` then lowercase `a`-`z`. -/
def digitChar36 (d : Nat) : Char :=
  if d < 10 then Char.ofNat (48 + d) else Char.ofNat (87 + d)

/-- Base-36 digit list of `n`, most significant first.  The first argument
is structural fuel; `n + 1` units always suffice since the value shrinks
by a factor of 36 every step. -/
def toBase36Go : Nat → Nat → List Char
  | 0, _ => []
  | fuel + 1, n =>
    if n < 36 then [digitChar36 n]
    else toBase36Go fuel (n / 36) ++ [digitChar36 (n % 36)]

/-- Base-36 rendering of a natural number, as
`Number.prototype.toString(36)` renders a nonnegative integer. -/
def toBase36List (n : Nat) : List Char := toBase36Go (n + 1) n

/-- Embedding of `hash` (helpers.mjs lines 149-159): accumulate the djb2
variant over the code units from last to first, render the unsigned
32-bit result in base 36 and keep the first six characters
(`.substr(0, 6)`). -/
def hash (s : String) (seed : Nat := 5381) : String :=
  String.mk ((toBase36List (hashValue (jsCharCodes s) seed)).take 6)

/-- Reference accumulator following the specification text: combine
`value = (value * 33) XOR charCode` over the characters scanned from the
end of the string, then reduce the result to an unsigned 32-bit integer
(a single truncation at the end instead of one per step). -/
def hashSpecValue (codes : List Nat) (seed : Nat) : Nat :=
  (codes.foldr (fun c u => (u * 33) ^^^ c) seed) % pow32

/-- Reference definition of the hash following the specification's words:
fold from the last character to the first, reduce to an unsigned 32-bit
integer once, render in base 36, take the first 6 characters. -/
def hashSpec (s : String) (seed : Nat := 5381) : String :=
  String.mk ((toBase36List (hashSpecValue (jsCharCodes s) seed)).take 6)

/-- Membership test for the base-36 alphabet `[0-9a-z]`. -/
def isBase36Char (c : Char) : Bool :=
  (48 ≤ c.toNat && c.toNat ≤ 57) || (97 ≤ c.toNat && c.toNat ≤ 122)

/-! ### Arithmetic facts used to relate the two accumulators -/

theorem xor_mod_two_pow (a b n : Nat) :
    (a ^^^ b) % 2 ^ n = a % 2 ^ n ^^^ b % 2 ^ n := by
  apply Nat.eq_of_testBit_eq
  intro i
  rcases lt_or_ge i n with h | h
  · simp [Nat.testBit_mod_two_pow, Nat.testBit_xor, h]
  · simp [Nat.testBit_mod_two_pow, Nat.testBit_xor, Nat.not_lt.mpr h]

theorem pow32_eq : pow32 = 2 ^ 32 := by decide

theorem foldr_mod_eq (l : List Nat) (s : Nat) :
    (l.foldr (fun c u => ((u * 33) ^^^ c) % pow32) s) % pow32 =
      (l.foldr (fun c u => (u * 33) ^^^ c) s) % pow32 := by
  induction l with
  | nil => rfl
  | cons c t ih =>
    simp only [List.foldr_cons]
    rw [pow32_eq] at ih ⊢
    rw [Nat.mod_mod_of_dvd _ dvd_rfl, xor_mod_two_pow, xor_mod_two_pow,
      Nat.mul_mod, Nat.mul_mod (t.foldr (fun c u => (u * 33) ^^^ c) s), ih]

/-- C4: for every string and seed, `hash` agrees with the reference
definition from the specification: fold `value = (value * 33) XOR
charCode` over the characters from the last to the first starting at the
seed, reduce once to an unsigned 32-bit integer, render in base 36 and
take the first 6 characters. -/
theorem hash_matches_reference : ∀ (s : String) (seed : Nat),
    hash s seed = hashSpec s seed := by
  intro s seed
  unfold hash hashSpec hashValue hashSpecValue
  rw [foldr_mod_eq]

/-! ### Shape of the rendered digest -/

theorem digitChar36_isBase36 : ∀ d, d < 36 → isBase36Char (digitChar36 d) = true := by
  decide

theorem toBase36Go_ne_nil (fuel n : Nat) : toBase36Go (fuel + 1) n ≠ [] := by
  unfold toBase36Go
  split
  · simp
  · simp

theorem toBase36Go_all_base36 (fuel : Nat) :
    ∀ n, (toBase36Go fuel n).all isBase36Char = true := by
  induction fuel with
  | zero => intro n; rfl
  | succ fuel ih =>
    intro n
    unfold toBase36Go
    split
    · simp only [List.all_cons, List.all_nil, Bool.and_true]
      exact digitChar36_isBase36 n (by omega)
    · rw [List.all_append]
      simp only [List.all_cons, List.all_nil, Bool.and_true]
      rw [ih (n / 36), digitChar36_isBase36 (n % 36) (Nat.mod_lt _ (by omega))]
      rfl

/-- C5: for every input string and seed, the digest produced by `hash`
is a non-empty string of at most six characters, all of which are drawn
from the base-36 alphabet `[0-9a-z]`. -/
theorem hash_output_shape : ∀ (s : String) (seed : Nat),
    1 ≤ (hash s seed).length ∧ (hash s seed).length ≤ 6 ∧
      ((hash s seed).data.all isBase36Char) = true := by
  intro s seed
  unfold hash
  have hne := toBase36Go_ne_nil (hashValue (jsCharCodes s) seed)
    (hashValue (jsCharCodes s) seed)
  have hlen : 1 ≤ (toBase36List (hashValue (jsCharCodes s) seed)).length := by
    cases hl : toBase36List (hashValue (jsCharCodes s) seed) with
    | nil => exact absurd hl hne
    | cons a t => simp
  refine ⟨?_, ?_, ?_⟩
  · show 1 ≤ ((toBase36List (hashValue (jsCharCodes s) seed)).take 6).length
    rw [List.length_take]
    omega
  · show ((toBase36List (hashValue (jsCharCodes s) seed)).take 6).length ≤ 6
    rw [List.length_take]
    omega
  · show ((toBase36List (hashValue (jsCharCodes s) seed)).take 6).all isBase36Char = true
    have hall := toBase36Go_all_base36 (hashValue (jsCharCodes s) seed + 1)
      (hashValue (jsCharCodes s) seed)
    rw [List.all_eq_true] at hall ⊢
    intro c hc
    exact hall c (List.take_subset 6 _ hc)

/-- C9: `hash` is a pure function, so two evaluations on the same string
and seed agree, and an omitted seed means the fixed constant `5381`. -/
theorem hash_deterministic : ∀ (s : String) (k : Nat),
    hash s k = hash s k ∧ hash s = hash s 5381 :=
  fun _ _ => ⟨rfl, rfl⟩

/-! ## Duplicate detection (helpers.mjs lines 169-183)

`generateHashedKey({ name, attributes })` hashes
`JSON.stringify([name, attributes])`, and `hasDuplicatedChildren` maps it
over the collection and checks with `every`/`findIndex` whether each key
first occurs at its own index. -/

/-- An Entity of the specification's data model: the argument shape of
`generateHashedKey`, a name together with an ordered attribute mapping
(JavaScript objects enumerate string keys in insertion order, which is
the order `JSON.stringify` serializes them in). -/
structure Entity where
  name : String
  attributes : List (String × String)
deriving DecidableEq

/-- JSON string escaping as `JSON.stringify` performs it on each
character: quote and backslash get a backslash, the named control
characters use their short escapes, remaining control characters use
`\u00XX`, and every other character is emitted verbatim. -/
def escapeJsonChar (c : Char) : List Char :=
  if c = Char.ofNat 34 then [Char.ofNat 92, Char.ofNat 34]
  else if c = Char.ofNat 92 then [Char.ofNat 92, Char.ofNat 92]
  else if c = Char.ofNat 8 then [Char.ofNat 92, Char.ofNat 98]
  else if c = Char.ofNat 9 then [Char.ofNat 92, Char.ofNat 116]
  else if c = Char.ofNat 10 then [Char.ofNat 92, Char.ofNat 110]
  else if c = Char.ofNat 12 then [Char.ofNat 92, Char.ofNat 102]
  else if c = Char.ofNat 13 then [Char.ofNat 92, Char.ofNat 114]
  else if c.toNat < 32 then
    [Char.ofNat 92, Char.ofNat 117, Char.ofNat 48, Char.ofNat 48,
      digitChar36 (c.toNat / 16), digitChar36 (c.toNat % 16)]
  else [c]

/-- A string rendered as a JSON string literal, double quotes included. -/
def quoteJson (s : String) : String :=
  "\"" ++ String.mk ((s.data.map escapeJsonChar).flatten) ++ "\""

/-- `JSON.stringify` of a flat object of string attributes, keys in
insertion order, no whitespace. -/
def stringifyAttrs (attrs : List (String × String)) : String :=
  "\x7b" ++ String.intercalate "," (attrs.map (fun kv => quoteJson kv.1 ++ ":" ++ quoteJson kv.2)) ++ "\x7d"

/-- `JSON.stringify([name, attributes])`, the serialization hashed by
`generateHashedKey`. -/
def jsonStringifyEntity (e : Entity) : String :=
  "[" ++ quoteJson e.name ++ "," ++ stringifyAttrs e.attributes ++ "]"

/-- Embedding of `generateHashedKey` (helpers.mjs line 169). -/
def generateHashedKey (e : Entity) : String := hash (jsonStringifyEntity e)

/-- `Array.prototype.findIndex` specialised to an equality test against
`k`: the index of the first match, or `-1` when there is none. -/
def jsFindIndexAux (k : String) : List String → Nat → Int
  | [], _ => -1
  | c :: rest, i => if c == k then (i : Int) else jsFindIndexAux k rest (i + 1)

/-- `hashedKeys.findIndex((childKey) => childKey === key)`. -/
def jsFindIndex (l : List String) (k : String) : Int := jsFindIndexAux k l 0

/-- `Array.prototype.every` with the element and its index, as the
callback of `hasDuplicatedChildren` uses it. -/
def everyWithIndex (f : String → Nat → Bool) : List String → Nat → Bool
  | [], _ => true
  | c :: rest, i => f c i && everyWithIndex f rest (i + 1)

/-- Embedding of `hasDuplicatedChildren` (helpers.mjs lines 177-183):
negate `every((key, index) => index === findIndex((childKey) => childKey
=== key))` over the mapped keys. -/
def hasDuplicatedChildren (children : List Entity) : Bool :=
  let hashedKeys := children.map generateHashedKey
  !(everyWithIndex (fun key index => ((index : Int) == jsFindIndex hashedKeys key)) hashedKeys 0)

/-! ### Characterizing the `every`/`findIndex` scan -/

theorem everyWithIndex_iff (f : String → Nat → Bool) :
    ∀ (l : List String) (n : Nat),
      everyWithIndex f l n = true ↔
        ∀ (j : Nat) (hj : j < l.length), f (l.get ⟨j, hj⟩) (n + j) = true := by
  intro l
  induction l with
  | nil =>
    intro n
    simp [everyWithIndex]
  | cons a t ih =>
    intro n
    rw [everyWithIndex, Bool.and_eq_true, ih (n + 1)]
    constructor
    · rintro ⟨ha, ht⟩ j hj
      match j with
      | 0 => simpa using ha
      | j + 1 =>
        have := ht j (by simpa using Nat.lt_of_succ_lt_succ hj)
        simpa [Nat.add_comm, Nat.add_assoc, Nat.add_left_comm] using this
    · intro h
      refine ⟨by simpa using h 0 (by simp), ?_⟩
      intro j hj
      have := h (j + 1) (by simpa using Nat.succ_lt_succ hj)
      simpa [Nat.add_comm, Nat.add_assoc, Nat.add_left_comm] using this

theorem jsFindIndexAux_min :
    ∀ (l : List String) (k : String) (n j : Nat) (hj : j < l.length),
      l.get ⟨j, hj⟩ = k →
      ∃ (i : Nat) (hi : i < l.length), i ≤ j ∧ l.get ⟨i, hi⟩ = k ∧
        jsFindIndexAux k l n = ((n + i : Nat) : Int) := by
  intro l
  induction l with
  | nil =>
    intro k n j hj
    exact absurd hj (by simp)
  | cons a t ih =>
    intro k n j hj hget
    by_cases hak : a == k
    · refine ⟨0, by simp, Nat.zero_le j, ?_, ?_⟩
      · simpa using eq_of_beq hak
      · simp [jsFindIndexAux, hak]
    · match j with
      | 0 =>
        exact absurd (beq_iff_eq.mpr (by simpa using hget)) hak
      | j + 1 =>
        have hj' : j < t.length := by simpa using Nat.lt_of_succ_lt_succ hj
        obtain ⟨i, hi, hle, hgi, hval⟩ := ih k (n + 1) j hj' (by simpa using hget)
        refine ⟨i + 1, by simpa using Nat.succ_lt_succ hi, Nat.succ_le_succ hle, by simpa using hgi, ?_⟩
        rw [jsFindIndexAux, if_neg (by simpa using hak), hval]
        congr 1
        omega

theorem everyOk_iff_nodup (l : List String) :
    everyWithIndex (fun key index => ((index : Int) == jsFindIndex l key)) l 0 = true ↔
      l.Nodup := by
  rw [everyWithIndex_iff]
  rw [List.nodup_iff_injective_get]
  constructor
  · intro h i1 i2 heq
    rcases i1 with ⟨i, hi⟩
    rcases i2 with ⟨j, hj⟩
    rcases Nat.lt_trichotomy i j with hij | hij | hij
    · exfalso
      have hcheck := h j hj
      rw [beq_iff_eq] at hcheck
      obtain ⟨i0, hi0, hle, hgi0, hval⟩ :=
        jsFindIndexAux_min l (l.get ⟨j, hj⟩) 0 i hi heq
      rw [jsFindIndex] at hcheck
      rw [hval] at hcheck
      have : 0 + j = 0 + i0 := by exact_mod_cast hcheck
      omega
    · exact Fin.ext hij
    · exfalso
      have hcheck := h i hi
      rw [beq_iff_eq] at hcheck
      obtain ⟨i0, hi0, hle, hgi0, hval⟩ :=
        jsFindIndexAux_min l (l.get ⟨i, hi⟩) 0 j hj heq.symm
      rw [jsFindIndex] at hcheck
      rw [hval] at hcheck
      have : 0 + i = 0 + i0 := by exact_mod_cast hcheck
      omega
  · intro hinj j hj
    obtain ⟨i, hi, hle, hgi, hval⟩ :=
      jsFindIndexAux_min l (l.get ⟨j, hj⟩) 0 j hj rfl
    have : (⟨i, hi⟩ : Fin l.length) = ⟨j, hj⟩ := hinj hgi
    have hij : i = j := by simpa using this
    rw [beq_iff_eq, jsFindIndex, hval]
    simp [hij]

theorem hasDuplicatedChildren_iff_not_nodup (children : List Entity) :
    hasDuplicatedChildren children = true ↔
      ¬ (children.map generateHashedKey).Nodup := by
  unfold hasDuplicatedChildren
  rw [Bool.not_eq_eq_eq_not]
  simp only [Bool.not_true]
  rw [← Bool.not_eq_true (everyWithIndex _ _ 0)]
  exact not_congr (everyOk_iff_nodup (children.map generateHashedKey))

/-- C3 (counterexample): the Entities named `ehpgzm` and `ujyffu`, both
with empty attributes, are distinct `(name, attributes)` pairs whose
six-character fingerprints coincide (both hash to `1fkzh5`), so
`hasDuplicatedChildren` reports `true` on a Collection of pairwise
distinct pairs, contradicting the claim that all-distinct pairs always
yield `false`. -/
theorem hasDuplicatedChildren_distinct_pairs_counterexample :
    ((⟨"ehpgzm", []⟩ : Entity) == (⟨"ujyffu", []⟩ : Entity)) = false ∧
      generateHashedKey ⟨"ehpgzm", []⟩ = generateHashedKey ⟨"ujyffu", []⟩ ∧
      hasDuplicatedChildren [⟨"ehpgzm", []⟩, ⟨"ujyffu", []⟩] = true := by
  refine ⟨by decide, by decide, by decide⟩

/-- C3 (amended): `hasDuplicatedChildren` is positive exactly when some
fingerprint produced by `generateHashedKey` is repeated across the
Collection; in particular a Collection containing the same Entity twice
is always reported positive, but pairwise distinct `(name, attributes)`
pairs guarantee a negative result only when their fingerprints are also
pairwise distinct, since distinct pairs may collide under the
six-character hash. -/
theorem hasDuplicatedChildren_spec :
    (∀ children : List Entity,
        hasDuplicatedChildren children = true ↔
          ¬ (children.map generateHashedKey).Nodup) ∧
      ∀ (pre mid post : List Entity) (e : Entity),
        hasDuplicatedChildren (pre ++ e :: mid ++ e :: post) = true := by
  refine ⟨hasDuplicatedChildren_iff_not_nodup, ?_⟩
  intro pre mid post e
  rw [hasDuplicatedChildren_iff_not_nodup]
  intro hnd
  rw [List.map_append, List.nodup_append] at hnd
  obtain ⟨-, -, hdisj⟩ := hnd
  have h1 : generateHashedKey e ∈ List.map generateHashedKey (pre ++ e :: mid) := by simp
  have h2 : generateHashedKey e ∈ List.map generateHashedKey (e :: post) := by simp
  exact List.disjoint_left.mp hdisj h1 h2

/-! ## Rename workflow (helpers.mjs lines 237-284)

`renameIcon(ICONS_DIR, oldName, newName)` checks four preconditions with
`fs.access`, moves `oldName.svg` and `oldName.json` to the new name via
`git mv`, parses the relocated metadata JSON, migrates the `aliases`
field, writes the metadata back, and stages it.

The working tree is modelled as an ordered association list from paths to
file contents together with the list of staged paths.  Metadata files
carry their parsed JSON object (an association list of fields in
insertion order, which `JSON.parse` and `JSON.stringify` both preserve);
artwork files carry opaque text.  A path whose content is not a JSON
object models a metadata file that `JSON.parse` rejects. -/

/-- A JSON value as `JSON.parse` produces it; objects are ordered
association lists of fields. -/
inductive JValue where
  | str (s : String)
  | num (n : Int)
  | bool (b : Bool)
  | null
  | arr (items : List JValue)
  | obj (fields : List (String × JValue))

/-- Content of one file of the icon tree: artwork text, or a parsed
metadata object. -/
inductive FileData where
  | svgData (content : String)
  | jsonData (fields : List (String × JValue))

/-- The state `renameIcon` mutates: the files of the working tree and the
paths staged with git. -/
structure WorkTree where
  files : List (String × FileData)
  staged : List String

/-- First field of an object under a key, as JavaScript property lookup
on an object built by `JSON.parse` (whose keys are unique). -/
def lookupField : List (String × JValue) → String → Option JValue
  | [], _ => none
  | (k, v) :: rest, key => if k = key then some v else lookupField rest key

/-- Property assignment `obj[key] = v`: an existing key keeps its
position, a new key is appended, as JavaScript objects behave. -/
def setField : List (String × JValue) → String → JValue → List (String × JValue)
  | [], key, v => [(key, v)]
  | (k, w) :: rest, key, v =>
    if k = key then (key, v) :: rest else (k, w) :: setField rest key v

/-- Property deletion `delete obj[key]`. -/
def deleteField (fields : List (String × JValue)) (key : String) : List (String × JValue) :=
  fields.filter (fun kv => !(kv.1 == key))

/-- The JavaScript `length` property of a JSON value: arrays and strings
have one, other values yield `undefined` (here `none`). -/
def jsLength : JValue → Option Nat
  | .str s => some s.length
  | .arr xs => some xs.length
  | _ => none

/-- Strict equality `v === s` between a JSON value and a string: `false`
whenever `v` is not a string. -/
def jsStrictEqStr (v : JValue) (s : String) : Bool :=
  match v with
  | .str t => t == s
  | _ => false

/-- Embedding of the alias-migration block of `renameIcon` (helpers.mjs
lines 266-273).  Note `jsonData.aliases.filter(...).push(oldName)`
evaluates to the return value of `push`, which is the new array length,
so the field is assigned a number; the subsequent
`jsonData.aliases.length === 0` test reads the `length` property of that
number, which is `undefined`, so the `delete` branch never runs. -/
def migrateAliases (fields : List (String × JValue)) (oldName newName : String) :
    List (String × JValue) :=
  match lookupField fields "aliases" with
  | some (JValue.arr xs) =>
    let kept := xs.filter (fun v => !jsStrictEqStr v newName)
    let pushResult : JValue := JValue.num (kept.length + 1)
    let fields' := setField fields "aliases" pushResult
    if (match jsLength pushResult with | some n => n == 0 | none => false)
    then deleteField fields' "aliases"
    else fields'
  | _ => setField fields "aliases" (JValue.arr [JValue.str oldName])

/-- Lookup of a path in the working tree files. -/
def fsLookup : List (String × FileData) → String → Option FileData
  | [], _ => none
  | (p, d) :: rest, key => if p = key then some d else fsLookup rest key

/-- Write a file: an existing path keeps its position, a new path is
appended. -/
def fsSet : List (String × FileData) → String → FileData → List (String × FileData)
  | [], key, v => [(key, v)]
  | (p, d) :: rest, key, v =>
    if p = key then (key, v) :: rest else (p, d) :: fsSet rest key v

/-- Remove a path from the working tree files. -/
def fsRemove (files : List (String × FileData)) (p : String) : List (String × FileData) :=
  files.filter (fun kv => !(kv.1 == p))

/-- The `fileExists` helper of `renameIcon`: `fs.access` succeeds exactly
when the path is present. -/
def fileExists (t : WorkTree) (p : String) : Bool := (fsLookup t.files p).isSome

/-- `git mv old new`: relocate the file and record both paths as staged;
fails when the source is missing. -/
def gitMv (t : WorkTree) (oldP newP : String) : Option WorkTree :=
  match fsLookup t.files oldP with
  | some d => some { files := fsSet (fsRemove t.files oldP) newP d,
                     staged := t.staged ++ [oldP, newP] }
  | none => none

/-- Outcome of one `renameIcon` invocation: the final tree, or the thrown
error message together with the tree as it stood when the throw
happened. -/
inductive RunResult where
  | ok (t : WorkTree)
  | err (msg : String) (t : WorkTree)

/-- The artwork path `ICONS_DIR/name.svg`. -/
def artPath (dir name : String) : String := (dir ++ "/" ++ name) ++ ".svg"

/-- The metadata path `ICONS_DIR/name.json`. -/
def metaPath (dir name : String) : String := (dir ++ "/" ++ name) ++ ".json"

/-- Embedding of `renameIcon` (helpers.mjs lines 237-284): the four
precondition checks in source order, each throwing before any mutation;
then the two `git mv` calls, the read-migrate-write of the metadata, and
the `git add`.  The final informational logging performs no mutation and
is omitted. -/
def renameIcon (dir oldName newName : String) (t : WorkTree) : RunResult :=
  if fileExists t (artPath dir newName) then
    .err ("ERROR: Icon icons/" ++ newName ++ ".svg already exists") t
  else if fileExists t (metaPath dir newName) then
    .err ("ERROR: Metadata file icons/" ++ newName ++ ".json already exists") t
  else if !fileExists t (artPath dir oldName) then
    .err ("ERROR: Icon icons/" ++ oldName ++ ".svg doesn\x27t exist") t
  else if !fileExists t (metaPath dir oldName) then
    .err ("ERROR: Metadata file icons/" ++ oldName ++ ".json doesn\x27t exist") t
  else
    match gitMv t (artPath dir oldName) (artPath dir newName) with
    | none => .err "git mv failed" t
    | some t1 =>
      match gitMv t1 (metaPath dir oldName) (metaPath dir newName) with
      | none => .err "git mv failed" t1
      | some t2 =>
        match fsLookup t2.files (metaPath dir newName) with
        | some (.jsonData fields) =>
          let fields' := migrateAliases fields oldName newName
          .ok { files := fsSet t2.files (metaPath dir newName) (.jsonData fields'),
                staged := t2.staged ++ [metaPath dir newName] }
        | _ => .err ("SyntaxError: invalid JSON in " ++ metaPath dir newName) t2

/-- The `aliases` value persisted under the new name by a successful run,
`none` when the run failed or the file is not a JSON object. -/
def persistedAliases (dir newName : String) (r : RunResult) : Option JValue :=
  match r with
  | .ok t =>
    match fsLookup t.files (metaPath dir newName) with
    | some (.jsonData f) => lookupField f "aliases"
    | _ => none
  | .err _ _ => none

/-- A working tree holding the icon `house` whose metadata aliases are
exactly `["home"]`: the spec's own worked scenario for renaming `house`
back to `home`. -/
def bugTree : WorkTree :=
  { files := [("icons/house.svg", .svgData "artwork"),
              ("icons/house.json", .jsonData [("aliases", JValue.arr [JValue.str "home"])])],
    staged := [] }

/-- C1 (code bug): renaming `house` (aliases `["home"]`) to `home`
persists `aliases: 1` — `Array.prototype.push` returns the new length and
that number is what line 267 assigns — instead of the `["house"]` the
specification requires, so the persisted aliases value is not an array at
all. -/
theorem renameIcon_push_bug :
    persistedAliases "icons" "home" (renameIcon "icons" "house" "home" bugTree) =
      some (JValue.num 1) := by
  rfl

/-- C2: the four precondition checks run in source order — new artwork
exists, new metadata exists, old artwork missing, old metadata missing —
each failure throws the error naming that file and reason, the returned
tree (files and staging area both) is exactly the input tree, and an
earlier check shadows every later one. -/
theorem renameIcon_precondition_order :
    ∀ (dir oldName newName : String) (t : WorkTree),
      (fileExists t (artPath dir newName) = true →
        renameIcon dir oldName newName t =
          .err ("ERROR: Icon icons/" ++ newName ++ ".svg already exists") t) ∧
      (fileExists t (artPath dir newName) = false →
        fileExists t (metaPath dir newName) = true →
        renameIcon dir oldName newName t =
          .err ("ERROR: Metadata file icons/" ++ newName ++ ".json already exists") t) ∧
      (fileExists t (artPath dir newName) = false →
        fileExists t (metaPath dir newName) = false →
        fileExists t (artPath dir oldName) = false →
        renameIcon dir oldName newName t =
          .err ("ERROR: Icon icons/" ++ oldName ++ ".svg doesn\x27t exist") t) ∧
      (fileExists t (artPath dir newName) = false →
        fileExists t (metaPath dir newName) = false →
        fileExists t (artPath dir oldName) = true →
        fileExists t (metaPath dir oldName) = false →
        renameIcon dir oldName newName t =
          .err ("ERROR: Metadata file icons/" ++ oldName ++ ".json doesn\x27t exist") t) := by
  intro dir oldName newName t
  refine ⟨?_, ?_, ?_, ?_⟩
  · intro h1
    simp [renameIcon, h1]
  · intro h1 h2
    simp [renameIcon, h1, h2]
  · intro h1 h2 h3
    simp [renameIcon, h1, h2, h3]
  · intro h1 h2 h3 h4
    simp [renameIcon, h1, h2, h3, h4]

/-- A working tree where the new artwork `icons/b.svg` already exists and
the old icon `a` is entirely missing, so several preconditions fail at
once. -/
def preTree : WorkTree := { files := [("icons/b.svg", .svgData "x")], staged := [] }

/-- Witness for C2: renaming `a` to `b` over `preTree` fails with the
new-artwork error and an unchanged tree, although the old-file checks
would also have failed. -/
theorem renameIcon_precondition_order_witness :
    renameIcon "icons" "a" "b" preTree =
      .err "ERROR: Icon icons/b.svg already exists" preTree :=
  (renameIcon_precondition_order "icons" "a" "b" preTree).1 rfl

/-! ### Bookkeeping lemmas for the modelled tree and metadata -/

theorem fsLookup_fsSet_self : ∀ (fs : List (String × FileData)) (p : String) (d : FileData),
    fsLookup (fsSet fs p d) p = some d := by
  intro fs p d
  induction fs with
  | nil => simp [fsSet, fsLookup]
  | cons kv rest ih =>
    rcases kv with ⟨k, w⟩
    simp only [fsSet]
    split
    · simp [fsLookup]
    · simp [fsLookup, *]

theorem fsLookup_fsSet_ne : ∀ (fs : List (String × FileData)) (p : String) (d : FileData)
    (q : String), q ≠ p → fsLookup (fsSet fs p d) q = fsLookup fs q := by
  intro fs p d q hqp
  induction fs with
  | nil => simp [fsSet, fsLookup, Ne.symm hqp]
  | cons kv rest ih =>
    rcases kv with ⟨k, w⟩
    simp only [fsSet]
    split
    · rename_i hkp
      simp [fsLookup, Ne.symm hqp, hkp]
    · simp only [fsLookup, ih]

theorem fsLookup_fsRemove_self : ∀ (fs : List (String × FileData)) (p : String),
    fsLookup (fsRemove fs p) p = none := by
  intro fs p
  induction fs with
  | nil => rfl
  | cons kv rest ih =>
    rcases kv with ⟨k, w⟩
    by_cases hkp : k = p
    · simpa [fsRemove, List.filter_cons, hkp] using ih
    · simpa [fsRemove, List.filter_cons, hkp, fsLookup] using ih

theorem fsLookup_fsRemove_ne : ∀ (fs : List (String × FileData)) (p q : String),
    q ≠ p → fsLookup (fsRemove fs p) q = fsLookup fs q := by
  intro fs p q hqp
  induction fs with
  | nil => rfl
  | cons kv rest ih =>
    rcases kv with ⟨k, w⟩
    by_cases hkp : k = p
    · rw [hkp]
      simpa [fsRemove, List.filter_cons, fsLookup, Ne.symm hqp] using ih
    · by_cases hkq : k = q
      · simp [fsRemove, List.filter_cons, hkp, fsLookup, hkq, hqp]
      · simpa [fsRemove, List.filter_cons, hkp, fsLookup, hkq] using ih

theorem lookupField_setField_self : ∀ (fields : List (String × JValue)) (k : String)
    (v : JValue), lookupField (setField fields k v) k = some v := by
  intro fields k v
  induction fields with
  | nil => simp [setField, lookupField]
  | cons kv rest ih =>
    rcases kv with ⟨k1, w⟩
    simp only [setField]
    split
    · simp [lookupField]
    · simp [lookupField, *]

theorem lookupField_setField_ne : ∀ (fields : List (String × JValue)) (k : String)
    (v : JValue) (q : String), q ≠ k → lookupField (setField fields k v) q = lookupField fields q := by
  intro fields k v q hqk
  induction fields with
  | nil => simp [setField, lookupField, Ne.symm hqk]
  | cons kv rest ih =>
    rcases kv with ⟨k1, w⟩
    simp only [setField]
    split
    · rename_i hk1
      simp [lookupField, Ne.symm hqk, hk1]
    · simp only [lookupField, ih]

/-- The alias migration touches only the `aliases` field: every other
field keeps the value it had in the parsed object. -/
theorem migrateAliases_frame (fields : List (String × JValue)) (oldName newName k : String)
    (hk : k ≠ "aliases") :
    lookupField (migrateAliases fields oldName newName) k = lookupField fields k := by
  unfold migrateAliases
  split
  · simp only [jsLength]
    exact lookupField_setField_ne _ _ _ _ hk
  · exact lookupField_setField_ne _ _ _ _ hk

/-- A path ending in `.svg` never equals a path ending in `.json`. -/
theorem svg_path_ne_json_path (x y : String) : x ++ ".svg" ≠ y ++ ".json" := by
  intro h
  have h2 := congrArg (fun s : String => s.data.getLast?) h
  simp only [String.data_append, List.getLast?_append] at h2
  have e1 : (".svg" : String).data.getLast? = some (Char.ofNat 103) := rfl
  have e2 : (".json" : String).data.getLast? = some (Char.ofNat 110) := rfl
  rw [e1, e2] at h2
  simp [Option.or] at h2

theorem artPath_ne_metaPath (d1 n1 d2 n2 : String) : artPath d1 n1 ≠ metaPath d2 n2 :=
  svg_path_ne_json_path (d1 ++ "/" ++ n1) (d2 ++ "/" ++ n2)

theorem fileExists_false_iff (t : WorkTree) (p : String) :
    fileExists t p = false ↔ fsLookup t.files p = none := by
  cases h : fsLookup t.files p <;> simp [fileExists, h]

/-- When all four preconditions hold and the old metadata parses as a
JSON object, `renameIcon` succeeds, both files are relocated to the new
name, the old paths are gone, and the metadata persisted under the new
name is the parsed object with the aliases migration applied. -/
theorem renameIcon_success (dir oldName newName : String) (t : WorkTree) (d : FileData)
    (fields : List (String × JValue))
    (h1 : fileExists t (artPath dir newName) = false)
    (h2 : fileExists t (metaPath dir newName) = false)
    (h3 : fsLookup t.files (artPath dir oldName) = some d)
    (h4 : fsLookup t.files (metaPath dir oldName) = some (.jsonData fields)) :
    ∃ t', renameIcon dir oldName newName t = .ok t' ∧
      fsLookup t'.files (artPath dir newName) = some d ∧
      fsLookup t'.files (artPath dir oldName) = none ∧
      fsLookup t'.files (metaPath dir oldName) = none ∧
      fsLookup t'.files (metaPath dir newName) =
        some (.jsonData (migrateAliases fields oldName newName)) := by
  have hAart : fileExists t (artPath dir oldName) = true := by simp [fileExists, h3]
  have hAmeta : fileExists t (metaPath dir oldName) = true := by simp [fileExists, h4]
  have hAA : artPath dir oldName ≠ artPath dir newName := by
    intro h
    rw [h, (fileExists_false_iff t _).mp h1] at h3
    exact Option.noConfusion h3
  have hMM : metaPath dir oldName ≠ metaPath dir newName := by
    intro h
    rw [h, (fileExists_false_iff t _).mp h2] at h4
    exact Option.noConfusion h4
  have hMoAn : metaPath dir oldName ≠ artPath dir newName :=
    Ne.symm (artPath_ne_metaPath dir newName dir oldName)
  have hMoAo : metaPath dir oldName ≠ artPath dir oldName :=
    Ne.symm (artPath_ne_metaPath dir oldName dir oldName)
  have hAnMn : artPath dir newName ≠ metaPath dir newName :=
    artPath_ne_metaPath dir newName dir newName
  have hAnMo : artPath dir newName ≠ metaPath dir oldName :=
    artPath_ne_metaPath dir newName dir oldName
  have hAoMn : artPath dir oldName ≠ metaPath dir newName :=
    artPath_ne_metaPath dir oldName dir newName
  have hAoMo : artPath dir oldName ≠ metaPath dir oldName :=
    artPath_ne_metaPath dir oldName dir oldName
  set t1 : WorkTree :=
    { files := fsSet (fsRemove t.files (artPath dir oldName)) (artPath dir newName) d,
      staged := t.staged ++ [artPath dir oldName, artPath dir newName] } with ht1
  have hm1 : gitMv t (artPath dir oldName) (artPath dir newName) = some t1 := by
    simp [gitMv, h3, ht1]
  have hl1M : fsLookup t1.files (metaPath dir oldName) = some (.jsonData fields) := by
    rw [ht1]
    show fsLookup (fsSet (fsRemove t.files (artPath dir oldName)) (artPath dir newName) d)
      (metaPath dir oldName) = some (.jsonData fields)
    rw [fsLookup_fsSet_ne _ _ _ _ hMoAn, fsLookup_fsRemove_ne _ _ _ hMoAo, h4]
  set t2 : WorkTree :=
    { files := fsSet (fsRemove t1.files (metaPath dir oldName)) (metaPath dir newName)
        (.jsonData fields),
      staged := t1.staged ++ [metaPath dir oldName, metaPath dir newName] } with ht2
  have hm2 : gitMv t1 (metaPath dir oldName) (metaPath dir newName) = some t2 := by
    simp [gitMv, hl1M, ht2]
  have hl2Mn : fsLookup t2.files (metaPath dir newName) = some (.jsonData fields) := by
    rw [ht2]
    exact fsLookup_fsSet_self _ _ _
  refine ⟨{ files := fsSet t2.files (metaPath dir newName)
              (.jsonData (migrateAliases fields oldName newName)),
            staged := t2.staged ++ [metaPath dir newName] }, ?_, ?_, ?_, ?_, ?_⟩
  · rw [renameIcon]
    rw [h1]
    simp only [Bool.false_eq_true, if_false]
    rw [h2]
    simp only [Bool.false_eq_true, if_false]
    rw [hAart, hAmeta]
    simp only [Bool.not_true, Bool.false_eq_true, if_false]
    simp only [hm1, hm2, hl2Mn]
  · show fsLookup (fsSet t2.files (metaPath dir newName) _) (artPath dir newName) = some d
    rw [fsLookup_fsSet_ne _ _ _ _ hAnMn, ht2]
    show fsLookup (fsSet (fsRemove t1.files (metaPath dir oldName)) (metaPath dir newName) _)
      (artPath dir newName) = some d
    rw [fsLookup_fsSet_ne _ _ _ _ hAnMn, fsLookup_fsRemove_ne _ _ _ hAnMo, ht1]
    exact fsLookup_fsSet_self _ _ _
  · show fsLookup (fsSet t2.files (metaPath dir newName) _) (artPath dir oldName) = none
    rw [fsLookup_fsSet_ne _ _ _ _ hAoMn, ht2]
    show fsLookup (fsSet (fsRemove t1.files (metaPath dir oldName)) (metaPath dir newName) _)
      (artPath dir oldName) = none
    rw [fsLookup_fsSet_ne _ _ _ _ hAoMn, fsLookup_fsRemove_ne _ _ _ hAoMo, ht1]
    show fsLookup (fsSet (fsRemove t.files (artPath dir oldName)) (artPath dir newName) d)
      (artPath dir oldName) = none
    rw [fsLookup_fsSet_ne _ _ _ _ hAA, fsLookup_fsRemove_self]
  · show fsLookup (fsSet t2.files (metaPath dir newName) _) (metaPath dir oldName) = none
    rw [fsLookup_fsSet_ne _ _ _ _ hMM, ht2]
    show fsLookup (fsSet (fsRemove t1.files (metaPath dir oldName)) (metaPath dir newName) _)
      (metaPath dir oldName) = none
    rw [fsLookup_fsSet_ne _ _ _ _ hMM, fsLookup_fsRemove_self]
  · exact fsLookup_fsSet_self _ _ _

/-- C7: renaming an icon whose metadata has no `aliases` field relocates
the artwork and metadata files to the new name, removes the old paths,
and persists metadata whose `aliases` list contains exactly the old
name. -/
theorem renameIcon_creates_alias (dir oldName newName : String) (t : WorkTree) (d : FileData)
    (fields : List (String × JValue))
    (h1 : fileExists t (artPath dir newName) = false)
    (h2 : fileExists t (metaPath dir newName) = false)
    (h3 : fsLookup t.files (artPath dir oldName) = some d)
    (h4 : fsLookup t.files (metaPath dir oldName) = some (.jsonData fields))
    (h5 : lookupField fields "aliases" = none) :
    ∃ t', renameIcon dir oldName newName t = .ok t' ∧
      fsLookup t'.files (artPath dir newName) = some d ∧
      fsLookup t'.files (artPath dir oldName) = none ∧
      fsLookup t'.files (metaPath dir oldName) = none ∧
      ∃ fields', fsLookup t'.files (metaPath dir newName) = some (.jsonData fields') ∧
        lookupField fields' "aliases" = some (JValue.arr [JValue.str oldName]) := by
  obtain ⟨t', hrun, ha, hb, hc, hd⟩ :=
    renameIcon_success dir oldName newName t d fields h1 h2 h3 h4
  refine ⟨t', hrun, ha, hb, hc, migrateAliases fields oldName newName, hd, ?_⟩
  unfold migrateAliases
  rw [h5]
  exact lookupField_setField_self _ _ _

/-- A tree holding the icon `home` whose metadata has no aliases field. -/
def aliasFreeTree : WorkTree :=
  { files := [("icons/home.svg", .svgData "home-art"),
              ("icons/home.json", .jsonData [("contributors", JValue.arr [])])],
    staged := [] }

/-- Witness for C7: renaming `home` to `house` over `aliasFreeTree`
relocates both files and persists `aliases: ["home"]`. -/
theorem renameIcon_creates_alias_witness :
    ∃ t', renameIcon "icons" "home" "house" aliasFreeTree = .ok t' ∧
      fsLookup t'.files (artPath "icons" "house") = some (.svgData "home-art") ∧
      fsLookup t'.files (artPath "icons" "home") = none ∧
      fsLookup t'.files (metaPath "icons" "home") = none ∧
      ∃ fields', fsLookup t'.files (metaPath "icons" "house") = some (.jsonData fields') ∧
        lookupField fields' "aliases" = some (JValue.arr [JValue.str "home"]) :=
  renameIcon_creates_alias "icons" "home" "house" aliasFreeTree (.svgData "home-art")
    [("contributors", JValue.arr [])] rfl rfl rfl rfl rfl

/-- Inverting a successful run: the old metadata parsed to some object,
and the file persisted under the new name is that object with the alias
migration applied. -/
theorem renameIcon_ok_inv (dir oldName newName : String) (t t' : WorkTree)
    (hrun : renameIcon dir oldName newName t = .ok t') :
    ∃ fields, fsLookup t.files (metaPath dir oldName) = some (.jsonData fields) ∧
      fsLookup t'.files (metaPath dir newName) =
        some (.jsonData (migrateAliases fields oldName newName)) := by
  have hgm : ∀ (s : WorkTree) (oldP newP : String) (s1 : WorkTree),
      gitMv s oldP newP = some s1 →
      ∃ d, fsLookup s.files oldP = some d ∧
        s1.files = fsSet (fsRemove s.files oldP) newP d := by
    intro s oldP newP s1 h
    unfold gitMv at h
    split at h
    · rename_i d hd
      refine ⟨d, hd, ?_⟩
      injection h with h2
      rw [← h2]
    · exact Option.noConfusion h
  unfold renameIcon at hrun
  split at hrun
  · exact RunResult.noConfusion hrun
  split at hrun
  · exact RunResult.noConfusion hrun
  split at hrun
  · exact RunResult.noConfusion hrun
  split at hrun
  · exact RunResult.noConfusion hrun
  split at hrun
  · exact RunResult.noConfusion hrun
  rename_i t1 heq1
  split at hrun
  · exact RunResult.noConfusion hrun
  rename_i t2 heq2
  split at hrun
  · rename_i fields heq3
    obtain ⟨d1, hd1, hfiles1⟩ := hgm _ _ _ _ heq1
    obtain ⟨d2, hd2, hfiles2⟩ := hgm _ _ _ _ heq2
    have hMoAn : metaPath dir oldName ≠ artPath dir newName :=
      Ne.symm (artPath_ne_metaPath dir newName dir oldName)
    have hMoAo : metaPath dir oldName ≠ artPath dir oldName :=
      Ne.symm (artPath_ne_metaPath dir oldName dir oldName)
    have hback : fsLookup t1.files (metaPath dir oldName) = fsLookup t.files (metaPath dir oldName) := by
      rw [hfiles1, fsLookup_fsSet_ne _ _ _ _ hMoAn, fsLookup_fsRemove_ne _ _ _ hMoAo]
    have hMn : fsLookup t2.files (metaPath dir newName) = some d2 := by
      rw [hfiles2]
      exact fsLookup_fsSet_self _ _ _
    rw [hMn] at heq3
    injection heq3 with heq3'
    refine ⟨fields, ?_, ?_⟩
    · rw [← hback, hd2, heq3']
    · have hrun2 : RunResult.ok { files := fsSet t2.files (metaPath dir newName) (FileData.jsonData (migrateAliases fields oldName newName)), staged := t2.staged ++ [metaPath dir newName] } = RunResult.ok t' := hrun
      injection hrun2 with h2
      rw [← h2]
      exact fsLookup_fsSet_self _ _ _
  · exact RunResult.noConfusion hrun

/-- C8: a successful rename preserves every metadata field other than
`aliases` unchanged: the read-modify-write cycle drops or alters nothing
it does not know about. -/
theorem renameIcon_preserves_other_fields (dir oldName newName k : String) (t t' : WorkTree)
    (fields : List (String × JValue))
    (hrun : renameIcon dir oldName newName t = .ok t')
    (hmeta : fsLookup t.files (metaPath dir oldName) = some (.jsonData fields))
    (hk : k ≠ "aliases") :
    ∃ fields', fsLookup t'.files (metaPath dir newName) = some (.jsonData fields') ∧
      lookupField fields' k = lookupField fields k := by
  obtain ⟨fields0, hmeta0, hpersist⟩ := renameIcon_ok_inv dir oldName newName t t' hrun
  rw [hmeta] at hmeta0
  injection hmeta0 with h1
  injection h1 with h2
  rw [← h2] at hpersist
  exact ⟨migrateAliases fields oldName newName, hpersist,
    migrateAliases_frame fields oldName newName k hk⟩

/-- Extract the final tree of a run (for the concrete witnesses). -/
def runTree (r : RunResult) : WorkTree :=
  match r with
  | .ok t => t
  | .err _ t => t

/-- Extract the metadata object stored at a path (for the concrete
witnesses). -/
def fieldsAt (t : WorkTree) (p : String) : List (String × JValue) :=
  match fsLookup t.files p with
  | some (.jsonData f) => f
  | _ => []

/-- A tree whose icon `sun` has both a known extra field and aliases. -/
def frameTree : WorkTree :=
  { files := [("icons/sun.svg", .svgData "sun-art"),
              ("icons/sun.json", .jsonData
                [("tags", JValue.arr [JValue.str "weather"]),
                 ("aliases", JValue.arr [JValue.str "old-sun"])])],
    staged := [] }

/-- The tree produced by renaming `sun` to `moon` over `frameTree`. -/
def frameRunTree : WorkTree := runTree (renameIcon "icons" "sun" "moon" frameTree)

/-- Witness for C8: after renaming `sun` to `moon`, the `tags` field of
the persisted metadata equals the original `tags` field. -/
theorem renameIcon_preserves_other_fields_witness :
    ∃ fields', fsLookup frameRunTree.files (metaPath "icons" "moon") =
        some (.jsonData fields') ∧
      lookupField fields' "tags" =
        lookupField [("tags", JValue.arr [JValue.str "weather"]),
                     ("aliases", JValue.arr [JValue.str "old-sun"])] "tags" :=
  renameIcon_preserves_other_fields "icons" "sun" "moon" "tags" frameTree frameRunTree
    [("tags", JValue.arr [JValue.str "weather"]),
     ("aliases", JValue.arr [JValue.str "old-sun"])] rfl rfl (by decide)

/-- Test for the value `some (JValue.arr [])`: is the stored aliases
value the empty JSON array. -/
def isEmptyArr : Option JValue → Bool
  | some (.arr []) => true
  | _ => false

/-- The migration never leaves an empty array in the `aliases` field: the
array branch stores a number (the `push` return value, at least 1) and
the other branch stores a one-element array. -/
theorem migrateAliases_no_empty (fields : List (String × JValue)) (oldName newName : String) :
    isEmptyArr (lookupField (migrateAliases fields oldName newName) "aliases") = false := by
  unfold migrateAliases
  split
  · simp only [jsLength]
    rw [if_neg (by simp : ¬(false = true)), lookupField_setField_self]
    rfl
  · rw [lookupField_setField_self]
    rfl

/-- C6: no successful rename ever persists an empty `aliases` array under
the new name. -/
theorem renameIcon_no_empty_aliases (dir oldName newName : String) (t t' : WorkTree)
    (fields' : List (String × JValue))
    (hrun : renameIcon dir oldName newName t = .ok t')
    (hmeta : fsLookup t'.files (metaPath dir newName) = some (.jsonData fields')) :
    isEmptyArr (lookupField fields' "aliases") = false := by
  obtain ⟨fields, -, hpersist⟩ := renameIcon_ok_inv dir oldName newName t t' hrun
  rw [hpersist] at hmeta
  injection hmeta with h1
  injection h1 with h2
  rw [← h2]
  exact migrateAliases_no_empty fields oldName newName

/-- A tree realising the spec's own empty-aliases scenario: `house` with
aliases exactly `["home"]`, to be renamed back to `home`. -/
def emptyCaseTree : WorkTree :=
  { files := [("icons/house.svg", .svgData "art"),
              ("icons/house.json", .jsonData [("aliases", JValue.arr [JValue.str "home"])])],
    staged := [] }

/-- The tree produced by renaming `house` to `home` over
`emptyCaseTree`. -/
def emptyCaseRunTree : WorkTree := runTree (renameIcon "icons" "house" "home" emptyCaseTree)

/-- Witness for C6: in the concrete scenario where removing the new name
empties the original alias list, the persisted aliases value is still not
the empty array. -/
theorem renameIcon_no_empty_aliases_witness :
    isEmptyArr (lookupField (fieldsAt emptyCaseRunTree (metaPath "icons" "home")) "aliases") =
      false :=
  renameIcon_no_empty_aliases "icons" "house" "home" emptyCaseTree emptyCaseRunTree
    (fieldsAt emptyCaseRunTree (metaPath "icons" "home")) rfl rfl

/-! ## The `readFile` wrapper (helpers.mjs line 53)

`readFile = (path) => fs.readFileSync(path.resolve(__dirname, '../', path), 'utf-8')`
lives in an ES module (`.mjs`), where the CommonJS binding `__dirname`
does not exist, so evaluating the argument list throws a ReferenceError
on every call before any filesystem access (the parameter `path` also
shadows the imported `path` module, so even with `__dirname` defined the
callee `path.resolve` would be `undefined`). -/

/-- The binding the body of `readFile` reads for `__dirname`: absent,
because helpers.mjs is an ES module and `__dirname` is a CommonJS-only
global. -/
def moduleDirname : Option String := none

/-- Embedding of `readFile` (helpers.mjs line 53): the body evaluates
`path.resolve(__dirname, ..)`; argument evaluation resolves `__dirname`
first, which throws, and even with it present the shadowed `path` would
make the callee undefined. -/
def readFile (_p : String) : Except String String :=
  match moduleDirname with
  | none => Except.error "ReferenceError: __dirname is not defined"
  | some _ => Except.error "TypeError: path.resolve is not a function"

/-- C10: every call of the exported `readFile` throws the `__dirname`
ReferenceError, so no input path ever yields file contents. -/
theorem readFile_always_throws : ∀ p : String,
    readFile p = Except.error "ReferenceError: __dirname is not defined" :=
  fun _ => rfl
